import Mathlib

/-
Verification development for the Color Separations engine
(`source/separations.rs`, `source/vector.rs`).

Modelling conventions:
* `f32`/`f64` values that take part in ordinary arithmetic are modelled as
  exact rationals (`ℚ`); rounding of floating-point operations is out of
  scope.  Rational division is total with `x / 0 = 0`, where `f32` would
  produce `±inf`/`NaN`; every place where this matters is noted.
* The ink limit is a `WithTop ℚ`: the program's default ink limit is
  `f32::INFINITY`, modelled by `⊤`.
* The serialization-time `clamp` function only compares values (no
  arithmetic), so for it we model `f32` faithfully, including `NaN` and the
  infinities, with IEEE comparison semantics (`F32` below).
* `usize` arithmetic (`%`, `/`, `-`, `pow`) is modelled by `ℕ` with
  truncating subtraction and division, matching Rust semantics.
-/

namespace ColorSeparations

/-- Three-dimensional vector of (modelled) `f32` components
(`source/vector.rs`, `struct Vector3`). -/
structure Vector3 where
  x : ℚ
  y : ℚ
  z : ℚ
deriving DecidableEq, Repr

/-- Vector (element-wise) addition (`impl Add for Vector3`). -/
instance : Add Vector3 :=
  ⟨fun a b => ⟨a.x + b.x, a.y + b.y, a.z + b.z⟩⟩

/-- Vector (element-wise) subtraction (`impl Sub for Vector3`). -/
instance : Sub Vector3 :=
  ⟨fun a b => ⟨a.x - b.x, a.y - b.y, a.z - b.z⟩⟩

/-- Negation (`impl Neg for Vector3`). -/
instance : Neg Vector3 :=
  ⟨fun a => ⟨-a.x, -a.y, -a.z⟩⟩

/-- Scalar multiplication (`impl Mul<f32> for Vector3` and the commuted
`impl Mul<Vector3> for f32`). -/
instance : SMul ℚ Vector3 :=
  ⟨fun k a => ⟨k * a.x, k * a.y, k * a.z⟩⟩

/-- Hadamard (element-wise) multiplication (`impl Mul for Vector3`). -/
instance : Mul Vector3 :=
  ⟨fun a b => ⟨a.x * b.x, a.y * b.y, a.z * b.z⟩⟩

/-- Hadamard (element-wise) division (`impl Div for Vector3`).  In the
source this is `f32` division; here `q / 0 = 0` where `f32` would give
`±inf` or `NaN`. -/
instance : Div Vector3 :=
  ⟨fun a b => ⟨a.x / b.x, a.y / b.y, a.z / b.z⟩⟩

/-- A candidate ("secondary"): the mixed color paired with the list of
per-primary blend fractions, exactly the data stored in the R-tree entry
`GeomWithData::new(secondary, (secondary, components))`. -/
def Candidate : Type := Vector3 × List ℚ

instance : DecidableEq Candidate := by
  unfold Candidate
  infer_instance

/-- Blend fraction extracted from the running mixed-radix counter:
`(number % resolution) as f32 / (resolution - 1) as f32`
(`source/separations.rs` line 294).  `resolution - 1` is `usize`
subtraction (truncating), and for `resolution = 1` the source divides by
`0.0` (yielding `NaN = 0.0/0.0`); the rational model yields `0` there. -/
def fractionOf (resolution number : ℕ) : ℚ :=
  ((number % resolution : ℕ) : ℚ) / ((resolution - 1 : ℕ) : ℚ)

/-- Body of the labelled loop `'secondaries` for a single combination
(`source/separations.rs` lines 288-312): walk the primaries in order,
taking one digit of `number` (base `R`) per primary; accumulate the
fraction total and abandon the combination (`none`) as soon as the total
exceeds the ink limit; otherwise multiply the running secondary by
`(fraction·primary + (1-fraction)·white) / white` and record the
fraction. -/
def mixLoop (R : ℕ) (inklimit : WithTop ℚ) (white : Vector3) :
    List Vector3 → ℕ → ℚ → Vector3 → Option (Vector3 × List ℚ)
  | [], _, _, secondary => some (secondary, [])
  | primary :: rest, number, total, secondary =>
    let fraction : ℚ := fractionOf R number
    let total' := total + fraction
    if inklimit < (total' : WithTop ℚ) then none
    else
      (mixLoop R inklimit white rest (number / R) total'
          (secondary * ((fraction • primary + (1 - fraction) • white) / white))).map
        (fun sc => (sc.1, fraction :: sc.2))

/-- One full combination, started from `secondary = white`, `total = 0.0`
and the combination's linear index `number`. -/
def mixCombo (primaries : List Vector3) (white : Vector3) (R : ℕ)
    (inklimit : WithTop ℚ) (number : ℕ) : Option (Vector3 × List ℚ) :=
  mixLoop R inklimit white primaries number 0 white

/-- The candidate generator: the loop
`'secondaries: for mut number in 0..count_secondaries` with
`count_secondaries = resolution.pow(primaries.len())`; abandoned
combinations contribute nothing (`continue 'secondaries`). -/
def secondaries (primaries : List Vector3) (white : Vector3) (R : ℕ)
    (inklimit : WithTop ℚ) : List (Vector3 × List ℚ) :=
  (List.range (R ^ primaries.length)).filterMap
    (mixCombo primaries white R inklimit)

/-- The per-axis resolution
`(target as f64).powf(1.0 / primaries.len() as f64).ceil() as usize`
(`source/separations.rs` line 197), modelled with exact real arithmetic in
place of `f64`. -/
noncomputable def resolution (target n : ℕ) : ℕ :=
  ⌈(target : ℝ) ^ ((1 : ℝ) / (n : ℝ))⌉₊

/-- The candidate set as `main` produces it: `secondaries` run at the
resolution computed from the target count and the number of primaries. -/
noncomputable def generatedSecondaries (primaries : List Vector3)
    (white : Vector3) (target : ℕ) (inklimit : WithTop ℚ) :
    List (Vector3 × List ℚ) :=
  secondaries primaries white (resolution target primaries.length) inklimit

/-- One grid coordinate, `(index % size) as f32 / (size - 1) as f32`
(`source/separations.rs` lines 260-266). -/
def gridComponent (size index : ℕ) : ℚ :=
  ((index % size : ℕ) : ℚ) / ((size - 1 : ℕ) : ℚ)

/-- The origin 3D LUT grid, generated by the triple loop of
`source/separations.rs` lines 259-271: blue outermost, then green, then
red innermost (varying fastest). -/
def colorsLut (size : ℕ) : List Vector3 :=
  (List.range size).flatMap fun indexBlue =>
    (List.range size).flatMap fun indexGreen =>
      (List.range size).map fun indexRed =>
        ⟨gridComponent size indexRed, gridComponent size indexGreen,
          gridComponent size indexBlue⟩

/-- Start of worker `t`'s slice:
`index_thread * colors_lut.len() / count_threads`
(`source/separations.rs` line 332). -/
def sliceStart (len W t : ℕ) : ℕ :=
  t * len / W

/-- One past the end of worker `t`'s slice:
`(index_thread + 1) * colors_lut.len() / count_threads`
(`source/separations.rs` line 333). -/
def sliceEnd (len W t : ℕ) : ℕ :=
  (t + 1) * len / W

/-- The grid indices worker `t` iterates over: `for index in start..end`
(`source/separations.rs` line 338). -/
def sliceIndices (len W t : ℕ) : List ℕ :=
  List.range' (sliceStart len W t) (sliceEnd len W t - sliceStart len W t)

/-- Worker `t`'s partial output for one channel, `f` being the per-cell
value pushed for that channel. -/
def workerOutput {β : Type} (f : ℕ → β) (len W t : ℕ) : List β :=
  (sliceIndices len W t).map f

/-- The merged output of one channel: each worker's partial output
concatenated in worker-index order (`source/separations.rs` lines
366-370). -/
def mergedOutput {β : Type} (f : ℕ → β) (len W : ℕ) : List β :=
  (List.range W).flatMap (workerOutput f len W)

/-- The same channel computed by a single sequential pass over the whole
grid in canonical order. -/
def sequentialOutput {β : Type} (f : ℕ → β) (len : ℕ) : List β :=
  (List.range len).map f

/-- Squared Euclidean distance between the mixed colors, the metric of the
R-tree's `nearest_neighbor`. -/
def sqDist (a b : Vector3) : ℚ :=
  (a.x - b.x) ^ 2 + (a.y - b.y) ^ 2 + (a.z - b.z) ^ 2

/-- Model of `rtree.nearest_neighbor(&color_lut)`: some candidate whose
mixed color minimizes Euclidean distance to the query, `none` exactly when
the candidate set is empty.  The source's tie-break is
traversal-dependent; the model keeps the first-encountered minimizer,
which the claims never depend on. -/
def nearestNeighbor (cands : List (Vector3 × List ℚ)) (query : Vector3) :
    Option (Vector3 × List ℚ) :=
  cands.foldl
    (fun best c =>
      match best with
      | none => some c
      | some b => if sqDist c.1 query < sqDist b.1 query then some c else some b)
    none

/-- Per-cell work of a worker (`source/separations.rs` lines 338-356):
look up the nearest candidate (the source calls `.unwrap()` on the result,
modelled by `Option` propagation), record its mixed color, and for each
primary the blend color `fraction·primary + (1-fraction)·white` and the
mask color `(fraction, fraction, fraction)`. -/
def perCell (cands : List (Vector3 × List ℚ)) (primaries : List Vector3)
    (white : Vector3) (color : Vector3) :
    Option (Vector3 × List (Vector3 × Vector3)) :=
  (nearestNeighbor cands color).map fun d =>
    (d.1,
      (primaries.zip d.2).map fun pf =>
        (pf.2 • pf.1 + (1 - pf.2) • white, ⟨pf.2, pf.2, pf.2⟩))

/-- Collects per-cell results, failing (`none`) if any cell failed; this
models the fact that a failing `unwrap` inside any worker kills the whole
run. -/
def sequenceOptions {α : Type} : List (Option α) → Option (List α)
  | [] => some []
  | o :: rest => o.bind fun a => (sequenceOptions rest).map (a :: ·)

/-- The parallel grid-mapping phase of `main`: every worker processes its
slice cell by cell, partial results are merged in worker order.  The
source performs no check of any kind on `cands` before launching the
workers; an empty candidate set surfaces only as a failed per-cell
lookup. -/
def mappingPhase (cands : List (Vector3 × List ℚ)) (primaries : List Vector3)
    (white : Vector3) (grid : List Vector3) (W : ℕ) :
    Option (List (Vector3 × List (Vector3 × Vector3))) :=
  sequenceOptions
    (mergedOutput (fun i => (grid[i]?).bind (perCell cands primaries white))
      grid.length W)

/-- An `f32` value for the serialization-time `clamp`: `NaN`, the two
infinities, or a finite value (idealized as a rational).  `clamp` only
compares values, so this model is exact. -/
inductive F32 where
  | nan : F32
  | inf : F32
  | ninf : F32
  | val : ℚ → F32
deriving DecidableEq, Repr

/-- IEEE-754 `<=` on `F32`: any comparison involving `NaN` is false. -/
def F32.fle : F32 → F32 → Bool
  | .nan, _ => false
  | _, .nan => false
  | .ninf, _ => true
  | _, .ninf => false
  | _, .inf => true
  | .inf, _ => false
  | .val a, .val b => a ≤ b

/-- IEEE-754 `<` on `F32`: any comparison involving `NaN` is false. -/
def F32.flt : F32 → F32 → Bool
  | .nan, _ => false
  | _, .nan => false
  | .inf, _ => false
  | _, .inf => true
  | _, .ninf => false
  | .ninf, _ => true
  | .val a, .val b => a < b

/-- The serialization-time clamp (`source/separations.rs` lines 393-401):
`if value <= 0.0 { 0.0 } else if value > 1.0 { 1.0 } else { value }`. -/
def clamp (value : F32) : F32 :=
  if F32.fle value (F32.val 0) then F32.val 0
  else if F32.flt (F32.val 1) value then F32.val 1
  else value

/-- Whether an `F32` is a finite value in the closed interval `[0, 1]`. -/
def inUnit01 : F32 → Bool
  | .val q => decide (0 ≤ q) && decide (q ≤ 1)
  | _ => false

/-! ### Unfolding lemmas for the vector operations -/

@[simp] lemma Vector3.add_def (a b : Vector3) :
    a + b = ⟨a.x + b.x, a.y + b.y, a.z + b.z⟩ := rfl

@[simp] lemma Vector3.sub_def (a b : Vector3) :
    a - b = ⟨a.x - b.x, a.y - b.y, a.z - b.z⟩ := rfl

@[simp] lemma Vector3.neg_def (a : Vector3) :
    -a = ⟨-a.x, -a.y, -a.z⟩ := rfl

@[simp] lemma Vector3.smul_def (k : ℚ) (a : Vector3) :
    k • a = ⟨k * a.x, k * a.y, k * a.z⟩ := rfl

@[simp] lemma Vector3.hmul_def (a b : Vector3) :
    a * b = ⟨a.x * b.x, a.y * b.y, a.z * b.z⟩ := rfl

@[simp] lemma Vector3.hdiv_def (a b : Vector3) :
    a / b = ⟨a.x / b.x, a.y / b.y, a.z / b.z⟩ := rfl

/-! ### Basic facts about blend fractions -/

lemma fractionOf_nonneg (R n : ℕ) : 0 ≤ fractionOf R n := by
  unfold fractionOf
  positivity

@[simp] lemma fractionOf_zero (R : ℕ) : fractionOf R 0 = 0 := by
  simp [fractionOf]

/-- Mixing with fraction `0` multiplies by `white / white`. -/
lemma zero_mix (p w : Vector3) : (0 : ℚ) • p + (1 - (0 : ℚ)) • w = w := by
  cases w
  simp

/-- Mixing with fraction `1` multiplies by `primary / white`. -/
lemma one_mix (p w : Vector3) : (1 : ℚ) • p + (1 - (1 : ℚ)) • w = p := by
  cases p
  simp

/-! ### Structural lemmas about the candidate generator -/

/-- If the mixing loop survives, the final running total (the incoming
total plus every recorded fraction) is still within the ink limit, and
every recorded fraction is non-negative. -/
lemma mixLoop_some_sum (R : ℕ) (L : WithTop ℚ) (w : Vector3) :
    ∀ (ps : List Vector3) (n : ℕ) (total : ℚ) (s sec : Vector3) (comps : List ℚ),
      mixLoop R L w ps n total s = some (sec, comps) →
      ((total : ℚ) : WithTop ℚ) ≤ L →
      (((total + comps.sum : ℚ) : WithTop ℚ) ≤ L) ∧ ∀ q ∈ comps, 0 ≤ q := by
  intro ps
  induction ps with
  | nil =>
    intro n total s sec comps h hle
    simp only [mixLoop, Option.some.injEq, Prod.mk.injEq] at h
    obtain ⟨-, h2⟩ := h
    subst h2
    refine ⟨by simpa using hle, by simp⟩
  | cons p rest ih =>
    intro n total s sec comps h hle
    simp only [mixLoop] at h
    split at h
    · simp at h
    · rename_i hcond
      obtain ⟨⟨sec', comps'⟩, h1, h2⟩ := Option.map_eq_some'.mp h
      rw [Prod.ext_iff] at h2
      obtain ⟨h2a, h2b⟩ := h2
      subst h2a
      subst h2b
      obtain ⟨hsum, hnn⟩ :=
        ih (n / R) (total + fractionOf R n) _ _ _ h1 (not_lt.mp hcond)
      constructor
      · rw [List.sum_cons, ← add_assoc]
        exact hsum
      · intro q hq
        rcases List.mem_cons.mp hq with hq | hq
        · exact hq ▸ fractionOf_nonneg R n
        · exact hnn q hq

/-- If the mixing loop survives, it recorded one fraction per primary and
the resulting secondary is the left fold of the mixing step over the
fraction/primary pairs, started from the incoming accumulator. -/
lemma mixLoop_some_foldl (R : ℕ) (L : WithTop ℚ) (w : Vector3) :
    ∀ (ps : List Vector3) (n : ℕ) (total : ℚ) (s sec : Vector3) (comps : List ℚ),
      mixLoop R L w ps n total s = some (sec, comps) →
      comps.length = ps.length ∧
      sec = (comps.zip ps).foldl
        (fun c fp => c * ((fp.1 • fp.2 + (1 - fp.1) • w) / w)) s := by
  intro ps
  induction ps with
  | nil =>
    intro n total s sec comps h
    simp only [mixLoop, Option.some.injEq, Prod.mk.injEq] at h
    obtain ⟨h1, h2⟩ := h
    subst h1
    subst h2
    simp
  | cons p rest ih =>
    intro n total s sec comps h
    simp only [mixLoop] at h
    split at h
    · simp at h
    · obtain ⟨⟨sec', comps'⟩, h1, h2⟩ := Option.map_eq_some'.mp h
      rw [Prod.ext_iff] at h2
      obtain ⟨h2a, h2b⟩ := h2
      subst h2a
      subst h2b
      obtain ⟨hlen, hfold⟩ := ih (n / R) (total + fractionOf R n) _ _ _ h1
      refine ⟨by simpa using hlen, ?_⟩
      rw [List.zip_cons_cons, List.foldl_cons]
      exact hfold

/-- Combination `0` (all digits zero, hence all fractions zero) survives
whenever the ink limit is non-negative. -/
lemma mixLoop_zero_isSome (R : ℕ) (L : WithTop ℚ) (w : Vector3) (hL : 0 ≤ L) :
    ∀ (ps : List Vector3) (s : Vector3), (mixLoop R L w ps 0 0 s).isSome = true := by
  intro ps
  induction ps with
  | nil =>
    intro s
    simp [mixLoop]
  | cons p rest ih =>
    intro s
    simp only [mixLoop, fractionOf_zero, add_zero]
    rw [if_neg]
    · rw [Option.isSome_map', Nat.zero_div]
      exact ih _
    · rw [WithTop.coe_zero]
      exact not_lt.mpr hL

/-! ### Partition and merge lemmas -/

lemma lo_mono_zero (lo : ℕ → ℕ) :
    ∀ b, (∀ t, t < b → lo t ≤ lo (t + 1)) → lo 0 ≤ lo b := by
  intro b
  induction b with
  | zero => intro _; exact le_refl _
  | succ b ih =>
    intro h
    exact le_trans (ih fun t ht => h t (by omega)) (h b (by omega))

/-- Concatenating the half-open ranges `[lo t, lo (t+1))` for `t < W`
telescopes to the single range `[lo 0, lo W)` when `lo` is monotone. -/
lemma flatMap_range'_telescope (lo : ℕ → ℕ) :
    ∀ (W : ℕ), (∀ t, t < W → lo t ≤ lo (t + 1)) →
      (List.range W).flatMap (fun t => List.range' (lo t) (lo (t + 1) - lo t)) =
        List.range' (lo 0) (lo W - lo 0) := by
  intro W
  induction W with
  | zero => intro _; simp
  | succ W ih =>
    intro h
    rw [List.range_succ, List.flatMap_append, ih fun t ht => h t (by omega)]
    simp only [List.flatMap_cons, List.flatMap_nil, List.append_nil]
    have h0W : lo 0 ≤ lo W := lo_mono_zero lo W fun t ht => h t (by omega)
    have hWS : lo W ≤ lo (W + 1) := h W (by omega)
    rw [show lo (W + 1) - lo 0 = (lo (W + 1) - lo W) + (lo W - lo 0) by omega,
      ← List.range'_append]
    congr 2
    omega

lemma sliceStart_mono (len W : ℕ) :
    ∀ t t', t ≤ t' → sliceStart len W t ≤ sliceStart len W t' := by
  intro t t' h
  exact Nat.div_le_div_right (Nat.mul_le_mul_right len h)

lemma sliceEnd_eq_next (len W t : ℕ) :
    sliceEnd len W t = sliceStart len W (t + 1) := rfl

/-- The exact slice length: the quotient `len / W` plus a carry of `0` or
`1` from the remainders. -/
lemma sliceIndices_length (len W t : ℕ) (hW : 0 < W) :
    (sliceIndices len W t).length =
      len / W + (t * len % W + len % W) / W := by
  unfold sliceIndices
  rw [List.length_range']
  unfold sliceEnd sliceStart
  have key : (t + 1) * len = W * (t * len / W + len / W) + (t * len % W + len % W) := by
    have h1 := Nat.div_add_mod (t * len) W
    have h2 := Nat.div_add_mod len W
    have h3 : (t + 1) * len = t * len + len := by ring
    rw [h3, Nat.mul_add]
    omega
  rw [key, Nat.mul_add_div hW]
  clear key
  generalize (t * len % W + len % W) / W = c
  generalize t * len / W = q1
  generalize len / W = q2
  omega

lemma carry_le_one (len W t : ℕ) (hW : 0 < W) :
    (t * len % W + len % W) / W ≤ 1 := by
  have h1 : t * len % W < W := Nat.mod_lt _ hW
  have h2 : len % W < W := Nat.mod_lt _ hW
  have : (t * len % W + len % W) < 2 * W := by omega
  have := Nat.div_lt_of_lt_mul (by omega : t * len % W + len % W < W * 2)
  omega

/-- The W slices cover the whole grid exactly, in order. -/
lemma slices_cover (len W : ℕ) (hW : 0 < W) :
    (List.range W).flatMap (fun t => sliceIndices len W t) = List.range len := by
  unfold sliceIndices
  simp only [sliceEnd_eq_next]
  rw [flatMap_range'_telescope (fun t => sliceStart len W t) W
    (fun t ht => sliceStart_mono len W t (t + 1) (by omega))]
  have h0 : sliceStart len W 0 = 0 := by
    unfold sliceStart
    simp
  have hw : sliceStart len W W = len := by
    unfold sliceStart
    exact Nat.mul_div_cancel_left len hW
  rw [h0, hw, Nat.sub_zero]
  exact (List.range_eq_range' len).symm

/-- Distinct workers own disjoint index sets. -/
lemma slices_disjoint (len W t₁ t₂ i : ℕ) (h12 : t₁ < t₂)
    (h1 : i ∈ sliceIndices len W t₁) : i ∉ sliceIndices len W t₂ := by
  unfold sliceIndices at h1 ⊢
  rw [List.mem_range'_1] at h1
  obtain ⟨hlo, hhi⟩ := h1
  intro hmem
  rw [List.mem_range'_1] at hmem
  obtain ⟨hlo2, -⟩ := hmem
  have e1 : sliceEnd len W t₁ = sliceStart len W (t₁ + 1) := rfl
  have m0 : sliceStart len W t₁ ≤ sliceEnd len W t₁ :=
    sliceStart_mono len W t₁ (t₁ + 1) (by omega)
  have m1 : sliceStart len W (t₁ + 1) ≤ sliceStart len W t₂ :=
    sliceStart_mono len W (t₁ + 1) t₂ (by omega)
  omega

/-- Merging the per-worker outputs in worker order reproduces the
sequential pass over the whole grid. -/
lemma merged_eq_sequential {β : Type} (f : ℕ → β) (len W : ℕ) (hW : 0 < W) :
    mergedOutput f len W = sequentialOutput f len := by
  unfold mergedOutput workerOutput sequentialOutput
  rw [← List.map_flatMap, slices_cover len W hW]

/-! ### Grid enumeration lemmas -/

/-- Flattening a two-level counting loop into a single linear index. -/
lemma flatMap_range_map {β : Type} (f : ℕ → ℕ → β) :
    ∀ (n m : ℕ),
      (List.range n).flatMap (fun a => (List.range m).map (f a)) =
        (List.range (n * m)).map (fun i => f (i / m) (i % m)) := by
  intro n m
  induction n with
  | zero => simp
  | succ n ih =>
    rw [List.range_succ, List.flatMap_append, ih]
    simp only [List.flatMap_cons, List.flatMap_nil, List.append_nil]
    rcases Nat.eq_zero_or_pos m with hm | hm
    · subst hm
      simp
    · rw [Nat.succ_mul, List.range_add, List.map_append, List.map_map]
      congr 1
      apply List.map_congr_left
      intro j hj
      rw [List.mem_range] at hj
      have hdiv : (n * m + j) / m = n := by
        rw [mul_comm, Nat.mul_add_div hm, Nat.div_eq_of_lt hj]
        omega
      have hmod : (n * m + j) % m = j := by
        rw [mul_comm, Nat.mul_add_mod m n j, Nat.mod_eq_of_lt hj]
      simp [hdiv, hmod]

/-- The grid in linear-index normal form: entry `i` decomposes `i` in
mixed radix with red innermost. -/
lemma colorsLut_eq_map (size : ℕ) :
    colorsLut size = (List.range (size ^ 3)).map fun i =>
      ⟨gridComponent size (i % (size * size) % size),
        gridComponent size (i % (size * size) / size),
        gridComponent size (i / (size * size))⟩ := by
  unfold colorsLut
  have hin : ∀ ib : ℕ,
      (List.range size).flatMap
          (fun ig => (List.range size).map fun ir =>
            (⟨gridComponent size ir, gridComponent size ig,
              gridComponent size ib⟩ : Vector3)) =
        (List.range (size * size)).map fun j =>
          ⟨gridComponent size (j % size), gridComponent size (j / size),
            gridComponent size ib⟩ := by
    intro ib
    rw [flatMap_range_map (fun ig ir =>
      (⟨gridComponent size ir, gridComponent size ig,
        gridComponent size ib⟩ : Vector3)) size size]
  simp only [hin]
  rw [flatMap_range_map (fun ib j =>
    (⟨gridComponent size (j % size), gridComponent size (j / size),
      gridComponent size ib⟩ : Vector3)) size (size * size)]
  rw [show size * (size * size) = size ^ 3 by ring]

/-! ### Nearest-neighbor and sequencing lemmas -/

lemma nnFold_isSome (q : Vector3) :
    ∀ (cands : List (Vector3 × List ℚ)) (acc : Option (Vector3 × List ℚ)),
      acc.isSome = true →
      (cands.foldl
        (fun best c =>
          match best with
          | none => some c
          | some b => if sqDist c.1 q < sqDist b.1 q then some c else some b)
        acc).isSome = true := by
  intro cands
  induction cands with
  | nil =>
    intro acc h
    simpa using h
  | cons c rest ih =>
    intro acc h
    rw [List.foldl_cons]
    apply ih
    cases acc with
    | none => simp at h
    | some b =>
      dsimp only
      split <;> rfl

/-- The model lookup succeeds exactly on non-empty candidate sets. -/
lemma nearestNeighbor_isSome (cands : List (Vector3 × List ℚ)) (q : Vector3)
    (h : cands ≠ []) : (nearestNeighbor cands q).isSome = true := by
  match cands with
  | [] => exact absurd rfl h
  | c :: rest =>
    unfold nearestNeighbor
    rw [List.foldl_cons]
    exact nnFold_isSome q rest _ rfl

lemma nearestNeighbor_singleton (cand : Vector3 × List ℚ) (q : Vector3) :
    nearestNeighbor [cand] q = some cand := rfl

lemma sequenceOptions_eq_none {α : Type} :
    ∀ l : List (Option α), none ∈ l → sequenceOptions l = none := by
  intro l
  induction l with
  | nil =>
    intro h
    simp at h
  | cons o rest ih =>
    intro h
    rcases List.mem_cons.mp h with h | h
    · rw [← h]
      rfl
    · have hr := ih h
      simp only [sequenceOptions]
      rw [hr]
      cases o <;> rfl

/-! ### The resolution computation -/

lemma one_le_resolution (target n : ℕ) (ht : 1 ≤ target) :
    1 ≤ resolution target n := by
  unfold resolution
  exact Nat.ceil_pos.mpr (Real.rpow_pos_of_pos (by exact_mod_cast ht) _)

lemma resolution_one_right (t : ℕ) : resolution t 1 = t := by
  unfold resolution
  norm_num [Real.rpow_one]

lemma rpow_nth_root_pow (target n : ℕ) (hn : 1 ≤ n) :
    ((target : ℝ) ^ ((1 : ℝ) / (n : ℝ))) ^ n = (target : ℝ) := by
  have hn0 : ((n : ℝ)) ≠ 0 := Nat.cast_ne_zero.mpr (by omega)
  rw [← Real.rpow_natCast ((target : ℝ) ^ ((1 : ℝ) / (n : ℝ))) n,
    ← Real.rpow_mul (by positivity), one_div_mul_cancel hn0, Real.rpow_one]

/-- The ceiling of the real `n`-th root is the least `R` with `R^n ≥
target`. -/
lemma resolution_spec (target n : ℕ) (hn : 1 ≤ n) (ht : 1 ≤ target) :
    1 ≤ resolution target n ∧ target ≤ resolution target n ^ n ∧
      ∀ r, target ≤ r ^ n → resolution target n ≤ r := by
  have hx0 : (0 : ℝ) ≤ (target : ℝ) ^ ((1 : ℝ) / (n : ℝ)) :=
    Real.rpow_nonneg (by positivity) _
  have hxn : ((target : ℝ) ^ ((1 : ℝ) / (n : ℝ))) ^ n = (target : ℝ) :=
    rpow_nth_root_pow target n hn
  have hres : resolution target n = ⌈(target : ℝ) ^ ((1 : ℝ) / (n : ℝ))⌉₊ := rfl
  refine ⟨one_le_resolution target n ht, ?_, ?_⟩
  · have h1 : (target : ℝ) ^ ((1 : ℝ) / (n : ℝ)) ≤ (resolution target n : ℝ) := by
      rw [hres]
      exact Nat.le_ceil _
    have h2 : (target : ℝ) ≤ ((resolution target n : ℕ) : ℝ) ^ n := by
      calc (target : ℝ) = ((target : ℝ) ^ ((1 : ℝ) / (n : ℝ))) ^ n := hxn.symm
        _ ≤ ((resolution target n : ℕ) : ℝ) ^ n := pow_le_pow_left₀ hx0 h1 n
    exact_mod_cast h2
  · intro r hr
    rw [hres, Nat.ceil_le]
    have hr' : (target : ℝ) ≤ ((r : ℕ) : ℝ) ^ n := by exact_mod_cast hr
    exact (pow_le_pow_iff_left₀ hx0 (by positivity) (by omega : n ≠ 0)).mp
      (by rw [hxn]; exact hr')

/-! ### Concrete evaluations of the generator -/

/-- A single-primary combination in closed form. -/
lemma mixCombo_single (p w : Vector3) (R : ℕ) (L : WithTop ℚ) (n : ℕ) :
    mixCombo [p] w R L n =
      if L < ((fractionOf R n : ℚ) : WithTop ℚ) then none
      else some
        (w * ((fractionOf R n • p + (1 - fractionOf R n) • w) / w),
          [fractionOf R n]) := by
  unfold mixCombo
  simp only [mixLoop, zero_add, Option.map_some']

/-- With target 1 the resolution is 1 and the generator yields a single
candidate whose only fraction is the degenerate `0 % 1 / (1 - 1)` — in
`f32` this is `0.0 / 0.0 = NaN`; in the rational model it is `0`. -/
lemma generatedSecondaries_target_one (p w : Vector3) (L : WithTop ℚ)
    (hL : 0 ≤ L) : generatedSecondaries [p] w 1 L = [(w * (w / w), [0])] := by
  unfold generatedSecondaries secondaries
  simp only [List.length_singleton, pow_one]
  rw [resolution_one_right]
  have hcombo : mixCombo [p] w 1 L 0 = some (w * (w / w), [0]) := by
    rw [mixCombo_single]
    simp only [fractionOf_zero, zero_mix]
    rw [WithTop.coe_zero, if_neg (not_lt.mpr hL)]
  rw [show List.range 1 = [0] from rfl]
  simp only [List.filterMap_cons, hcombo, List.filterMap_nil]

/-- With one primary and ink limit 0, only the all-zero combination
survives, whatever the target is. -/
lemma generatedSecondaries_limit_zero (p w : Vector3) (target : ℕ)
    (ht : 1 ≤ target) :
    generatedSecondaries [p] w target 0 = [(w * (w / w), [0])] := by
  unfold generatedSecondaries secondaries
  simp only [List.length_singleton, pow_one]
  rw [resolution_one_right]
  obtain ⟨R', hR⟩ : ∃ R', target = R' + 1 := ⟨target - 1, by omega⟩
  subst hR
  rw [List.range_succ_eq_map]
  have hhead : mixCombo [p] w (R' + 1) 0 0 = some (w * (w / w), [0]) := by
    rw [mixCombo_single]
    simp only [fractionOf_zero, zero_mix]
    rw [WithTop.coe_zero, if_neg (lt_irrefl 0)]
  have htail :
      List.filterMap (mixCombo [p] w (R' + 1) 0) ((List.range R').map Nat.succ)
        = [] := by
    rw [List.filterMap_map]
    apply List.filterMap_eq_nil_iff.mpr
    intro m hm
    rw [List.mem_range] at hm
    show mixCombo [p] w (R' + 1) 0 (Nat.succ m) = none
    rw [mixCombo_single, if_pos]
    have hfrac : fractionOf (R' + 1) (Nat.succ m) = ((m + 1 : ℕ) : ℚ) / ((R' : ℕ) : ℚ) := by
      unfold fractionOf
      rw [Nat.mod_eq_of_lt (by omega), Nat.add_sub_cancel]
    rw [hfrac, ← WithTop.coe_zero, WithTop.coe_lt_coe]
    apply div_pos
    · positivity
    · exact_mod_cast Nat.pos_of_ne_zero (by omega)
  simp only [List.filterMap_cons, hhead, htail]

/-- With one primary, target 2 and no ink limit, the generator yields the
all-zero and the all-one candidates, in that order. -/
lemma generatedSecondaries_two_top (p w : Vector3) :
    generatedSecondaries [p] w 2 ⊤ = [(w * (w / w), [0]), (w * (p / w), [1])] := by
  unfold generatedSecondaries secondaries
  simp only [List.length_singleton, pow_one]
  rw [resolution_one_right]
  rw [show List.range 2 = [0, 1] from rfl]
  have h0 : mixCombo [p] w 2 ⊤ 0 = some (w * (w / w), [0]) := by
    rw [mixCombo_single]
    simp only [fractionOf_zero, zero_mix]
    rw [if_neg not_top_lt]
  have h1 : mixCombo [p] w 2 ⊤ 1 = some (w * (p / w), [1]) := by
    rw [mixCombo_single]
    have hf : fractionOf 2 1 = 1 := by
      unfold fractionOf
      norm_num
    rw [hf, one_mix, if_neg not_top_lt]
  simp only [List.filterMap_cons, h0, h1, List.filterMap_nil]

/-- Taking an index modulo the grid size inside `gridComponent` is
redundant. -/
lemma gridComponent_mod (size a : ℕ) :
    gridComponent size (a % size) = gridComponent size a := by
  unfold gridComponent
  rw [Nat.mod_mod_of_dvd a (dvd_refl size)]

/-! ### Claim theorems -/

/-- C1: for every list of at least one primary, every target count ≥ 1 and
every non-negative configured ink limit, every candidate the generator
pushes has a blend-fraction sum within the ink limit, and every running
prefix sum of its fractions is within the limit as well; a combination
whose running prefix sum exceeds the limit is abandoned before the
candidate is constructed, so no violating candidate ever appears in the
output. -/
theorem claim_C1_ink_limit_invariant (primaries : List Vector3) (white : Vector3)
    (target : ℕ) (inklimit : WithTop ℚ)
    (hN : 1 ≤ primaries.length) (ht : 1 ≤ target) (hL : 0 ≤ inklimit) :
    ∀ c ∈ generatedSecondaries primaries white target inklimit,
      ((c.2.sum : ℚ) : WithTop ℚ) ≤ inklimit ∧
        ∀ k, (((c.2.take k).sum : ℚ) : WithTop ℚ) ≤ inklimit := by
  intro c hc
  unfold generatedSecondaries secondaries at hc
  obtain ⟨n, hn, hsome⟩ := List.mem_filterMap.mp hc
  unfold mixCombo at hsome
  rcases c with ⟨sec, comps⟩
  obtain ⟨hsum, hnn⟩ :=
    mixLoop_some_sum _ inklimit white primaries n 0 white sec comps hsome
      (by rw [WithTop.coe_zero]; exact hL)
  rw [zero_add] at hsum
  refine ⟨hsum, ?_⟩
  intro k
  have hsplit := List.sum_take_add_sum_drop comps k
  have hdrop : 0 ≤ (comps.drop k).sum :=
    List.sum_nonneg fun q hq => hnn q (List.mem_of_mem_drop hq)
  have htake : (comps.take k).sum ≤ comps.sum := by linarith
  exact le_trans (WithTop.coe_le_coe.mpr htake) hsum

/-- Witness for C1: with primary `(0,0,0)`, white `(1,1,1)`, target 2 and
no ink limit, the all-zero candidate is produced and its fraction sum is
within the (infinite) limit. -/
theorem claim_C1_witness :
    (((⟨1, 1, 1⟩ : Vector3) * (⟨1, 1, 1⟩ / ⟨1, 1, 1⟩), ([0] : List ℚ)) ∈
        generatedSecondaries [⟨0, 0, 0⟩] ⟨1, 1, 1⟩ 2 ⊤) ∧
      ((((([0] : List ℚ)).sum : ℚ) : WithTop ℚ) ≤ ⊤) := by
  have hm : ((⟨1, 1, 1⟩ : Vector3) * (⟨1, 1, 1⟩ / ⟨1, 1, 1⟩), ([0] : List ℚ)) ∈
      generatedSecondaries [⟨0, 0, 0⟩] ⟨1, 1, 1⟩ 2 ⊤ := by
    rw [generatedSecondaries_two_top]
    exact List.mem_cons_self _ _
  exact ⟨hm,
    (claim_C1_ink_limit_invariant [⟨0, 0, 0⟩] ⟨1, 1, 1⟩ 2 ⊤ (by decide) (by decide)
      le_top _ hm).1⟩

/-- C2: for every grid length and worker count W ≥ 1, the per-worker
slices `[t*len/W, (t+1)*len/W)` cover the grid indices exactly once in
order, have lengths `len/W` or `len/W + 1`, are pairwise disjoint, and
concatenating the per-worker outputs of any channel in worker order
equals the sequential pass over the whole grid in canonical order. -/
theorem claim_C2_partition_merge (len W : ℕ) (f : ℕ → Vector3) (hW : 1 ≤ W) :
    (List.range W).flatMap (fun t => sliceIndices len W t) = List.range len ∧
      (∀ t, t < W →
        (sliceIndices len W t).length = len / W ∨
          (sliceIndices len W t).length = len / W + 1) ∧
      (∀ t₁ t₂ i, t₁ < t₂ → t₂ < W →
        i ∈ sliceIndices len W t₁ → i ∉ sliceIndices len W t₂) ∧
      mergedOutput f len W = sequentialOutput f len := by
  refine ⟨slices_cover len W hW, ?_, ?_, merged_eq_sequential f len W hW⟩
  · intro t ht
    have h1 := sliceIndices_length len W t hW
    have h2 := carry_le_one len W t hW
    rcases Nat.le_one_iff_eq_zero_or_eq_one.mp h2 with h3 | h3 <;> rw [h3] at h1
    · left
      simpa using h1
    · right
      exact h1
  · intro t₁ t₂ i h12 h2W hmem
    exact slices_disjoint len W t₁ t₂ i h12 hmem

/-- Witness for C2: grid length 8 split across 3 workers merges back to
the sequential order. -/
theorem claim_C2_witness :
    (1 ≤ 3) ∧
      mergedOutput (fun i => (⟨(i : ℚ), 0, 0⟩ : Vector3)) 8 3 =
        sequentialOutput (fun i => (⟨(i : ℚ), 0, 0⟩ : Vector3)) 8 :=
  ⟨by decide,
    (claim_C2_partition_merge 8 3 (fun i => (⟨(i : ℚ), 0, 0⟩ : Vector3))
      (by decide)).2.2.2⟩

/-- C3: for every number of primaries N ≥ 1 and target count ≥ 1, the
generator's per-axis resolution R satisfies `R^N ≥ target` and is the
smallest (positive) integer doing so. -/
theorem claim_C3_resolution_minimal (target n : ℕ) (hn : 1 ≤ n) (ht : 1 ≤ target) :
    1 ≤ resolution target n ∧ target ≤ resolution target n ^ n ∧
      ∀ r, target ≤ r ^ n → resolution target n ≤ r :=
  resolution_spec target n hn ht

/-- Witness for C3: 2 primaries with target 5 give resolution `⌈√5⌉ = 3`,
which satisfies the specification. -/
theorem claim_C3_witness :
    ((1 ≤ 2 ∧ 1 ≤ 5) ∧
      (1 ≤ resolution 5 2 ∧ 5 ≤ resolution 5 2 ^ 2 ∧
        ∀ r, 5 ≤ r ^ 2 → resolution 5 2 ≤ r)) :=
  ⟨⟨by decide, by decide⟩, claim_C3_resolution_minimal 5 2 (by decide) (by decide)⟩

/-- C4: every surviving combination's mixed color is the left fold,
starting from white, that multiplies by
`(fraction·primary + (1−fraction)·white) / white` for each primary in
index order (and one fraction is recorded per primary). -/
theorem claim_C4_mixing_fold (primaries : List Vector3) (white : Vector3)
    (R : ℕ) (inklimit : WithTop ℚ) (number : ℕ) (sec : Vector3) (comps : List ℚ)
    (h : mixCombo primaries white R inklimit number = some (sec, comps)) :
    comps.length = primaries.length ∧
      sec = (comps.zip primaries).foldl
        (fun c fp => c * ((fp.1 • fp.2 + (1 - fp.1) • white) / white)) white :=
  mixLoop_some_foldl R inklimit white primaries number 0 white sec comps h

/-- Witness for C4: the all-one combination for a single primary. -/
theorem claim_C4_witness :
    ([(1 : ℚ)].length = [(⟨0, 0, 0⟩ : Vector3)].length) ∧
      (⟨1, 1, 1⟩ : Vector3) * (⟨0, 0, 0⟩ / ⟨1, 1, 1⟩) =
        (([(1 : ℚ)]).zip [(⟨0, 0, 0⟩ : Vector3)]).foldl
          (fun c fp => c * ((fp.1 • fp.2 + (1 - fp.1) • (⟨1, 1, 1⟩ : Vector3)) / ⟨1, 1, 1⟩))
          ⟨1, 1, 1⟩ := by
  have hconc : mixCombo [(⟨0, 0, 0⟩ : Vector3)] ⟨1, 1, 1⟩ 2 ⊤ 1 =
      some ((⟨1, 1, 1⟩ : Vector3) * (⟨0, 0, 0⟩ / ⟨1, 1, 1⟩), [1]) := by
    rw [mixCombo_single]
    have hf : fractionOf 2 1 = 1 := by
      unfold fractionOf
      norm_num
    rw [hf, one_mix, if_neg not_top_lt]
  exact claim_C4_mixing_fold [⟨0, 0, 0⟩] ⟨1, 1, 1⟩ 2 ⊤ 1 _ _ hconc

/-- C8: the i-th entry of the generated grid has red component
`(i mod size)/(size−1)`, green `((i div size) mod size)/(size−1)` and blue
`((i div size²) mod size)/(size−1)`: blue is outermost and red varies
fastest. -/
theorem claim_C8_grid_order (size i : ℕ) (hsize : 2 ≤ size) (hi : i < size ^ 3) :
    (colorsLut size)[i]? =
      some ⟨gridComponent size i, gridComponent size (i / size),
        gridComponent size (i / size ^ 2)⟩ := by
  rw [colorsLut_eq_map, List.getElem?_map, List.getElem?_range hi,
    Option.map_some']
  rw [Nat.mod_mod_of_dvd i ⟨size, rfl⟩, gridComponent_mod size i,
    Nat.mod_mul_right_div_self i size size, gridComponent_mod size (i / size),
    show size * size = size ^ 2 from by ring]

/-- Witness for C8: entry 5 of the size-2 grid is `(red, green, blue) =
(1, 0, 1)` in grid-component form. -/
theorem claim_C8_witness :
    ((2 ≤ 2 ∧ 5 < 2 ^ 3) ∧
      (colorsLut 2)[5]? =
        some ⟨gridComponent 2 5, gridComponent 2 (5 / 2),
          gridComponent 2 (5 / 2 ^ 2)⟩) :=
  ⟨⟨by decide, by decide⟩, claim_C8_grid_order 2 5 (by decide) (by decide)⟩

/-- C5 (counterexample to the claim as stated): the source contains no
pre-launch emptiness check — handed an empty candidate set, the mapping
phase is entered and fails at the per-cell nearest-neighbor lookup inside
a worker (the per-cell `unwrap`), contradicting "the failure never occurs
per-cell inside a worker". -/
theorem claim_C5_counterexample :
    mappingPhase [] [(⟨0, 0, 0⟩ : Vector3)] ⟨1, 1, 1⟩ (colorsLut 2) 1 = none ∧
      perCell [] [(⟨0, 0, 0⟩ : Vector3)] ⟨1, 1, 1⟩ ⟨0, 0, 0⟩ = none := by
  exact ⟨by decide, rfl⟩

/-- C5 (amended): there is no pre-launch emptiness check; for every
worker count ≥ 1 and non-empty grid, an empty candidate set makes the
mapping phase itself fail at a per-cell lookup inside a worker.  (By C10
the generator never produces an empty candidate set, so this failure is
unreachable through `main`.) -/
theorem claim_C5_empty_candidates_fail_per_cell (primaries : List Vector3)
    (white : Vector3) (grid : List Vector3) (W : ℕ)
    (hW : 1 ≤ W) (hg : grid ≠ []) :
    mappingPhase [] primaries white grid W = none := by
  unfold mappingPhase
  apply sequenceOptions_eq_none
  rw [merged_eq_sequential _ _ _ hW]
  unfold sequentialOutput
  obtain ⟨g, gs, rfl⟩ : ∃ g gs, grid = g :: gs := by
    cases grid with
    | nil => exact absurd rfl hg
    | cons g gs => exact ⟨g, gs, rfl⟩
  apply List.mem_map.mpr
  refine ⟨0, List.mem_range.mpr (by simp), ?_⟩
  simp [perCell, nearestNeighbor]

/-- Witness for C5 (amended): a one-element grid with two workers. -/
theorem claim_C5_witness :
    (1 ≤ 2) ∧ ([(⟨0, 0, 0⟩ : Vector3)] ≠ []) ∧
      mappingPhase [] [] (⟨1, 1, 1⟩ : Vector3) [(⟨0, 0, 0⟩ : Vector3)] 2 = none :=
  ⟨by decide, by simp,
    claim_C5_empty_candidates_fail_per_cell [] ⟨1, 1, 1⟩ [⟨0, 0, 0⟩] 2
      (by decide) (by simp)⟩

/-- C6 (counterexample): with 1 primary and target 1 the resolution is 1,
so the single candidate's blend fraction is `(0 % 1) / (1 - 1)` — `0.0 /
0.0 = NaN` in the `f32` source, `0` in the exact rational model — and in
either case not the claimed 100 %. -/
theorem claim_C6_counterexample :
    generatedSecondaries [(⟨0, 0, 0⟩ : Vector3)] ⟨1, 1, 1⟩ 1 ⊤ =
        [((⟨1, 1, 1⟩ : Vector3), [0])] ∧ (0 : ℚ) ≠ 1 := by
  constructor
  · rw [generatedSecondaries_target_one (⟨0, 0, 0⟩ : Vector3) ⟨1, 1, 1⟩ ⊤ le_top]
    norm_num
  · norm_num

/-- C6 (amended): with 1 primary, grid size 2 and target 1 the run has
exactly 8 grid cells and a single candidate, and every cell is mapped to
that candidate; but the candidate's blend fraction is the degenerate
`0/0` (NaN in the `f32` source, 0 in this model), not 100 %. -/
theorem claim_C6_scenario1_amended (p w : Vector3) :
    (colorsLut 2).length = 8 ∧
      generatedSecondaries [p] w 1 ⊤ = [(w * (w / w), [0])] ∧
      ∀ c ∈ colorsLut 2,
        perCell (generatedSecondaries [p] w 1 ⊤) [p] w c =
          some (w * (w / w), [(w, ⟨0, 0, 0⟩)]) := by
  refine ⟨by decide, generatedSecondaries_target_one p w ⊤ le_top, ?_⟩
  intro c hc
  rw [generatedSecondaries_target_one p w ⊤ le_top]
  unfold perCell
  rw [nearestNeighbor_singleton, Option.map_some']
  simp only [List.zip_cons_cons, List.zip_nil_left, List.map_cons, List.map_nil]
  rw [zero_mix]

/-- Witness for C6 (amended): the first grid cell of the size-2 grid. -/
theorem claim_C6_witness :
    ((⟨gridComponent 2 0, gridComponent 2 0, gridComponent 2 0⟩ : Vector3) ∈
        colorsLut 2) ∧
      perCell (generatedSecondaries [(⟨0, 0, 0⟩ : Vector3)] ⟨1, 1, 1⟩ 1 ⊤)
          [(⟨0, 0, 0⟩ : Vector3)] ⟨1, 1, 1⟩
          ⟨gridComponent 2 0, gridComponent 2 0, gridComponent 2 0⟩ =
        some ((⟨1, 1, 1⟩ : Vector3) * (⟨1, 1, 1⟩ / ⟨1, 1, 1⟩),
          [(⟨1, 1, 1⟩, ⟨0, 0, 0⟩)]) := by
  have hmem : (⟨gridComponent 2 0, gridComponent 2 0, gridComponent 2 0⟩ :
      Vector3) ∈ colorsLut 2 := by
    unfold colorsLut
    apply List.mem_flatMap.mpr
    refine ⟨0, by decide, ?_⟩
    apply List.mem_flatMap.mpr
    refine ⟨0, by decide, ?_⟩
    exact List.mem_map.mpr ⟨0, by decide, rfl⟩
  exact ⟨hmem, (claim_C6_scenario1_amended ⟨0, 0, 0⟩ ⟨1, 1, 1⟩).2.2 _ hmem⟩

/-- C7 (counterexample): with one primary, ink limit 0 and target 2, the
generator produces exactly one candidate (the all-zero fraction), not
two: the all-one combination has running total `1 > 0` and is
abandoned. -/
theorem claim_C7_counterexample :
    generatedSecondaries [(⟨0, 0, 0⟩ : Vector3)] ⟨1, 1, 1⟩ 2 0 =
        [((⟨1, 1, 1⟩ : Vector3), [0])] ∧
      (generatedSecondaries [(⟨0, 0, 0⟩ : Vector3)] ⟨1, 1, 1⟩ 2 0).length ≠ 2 := by
  have h := generatedSecondaries_limit_zero (⟨0, 0, 0⟩ : Vector3) ⟨1, 1, 1⟩ 2
    (by decide)
  have hw : (⟨1, 1, 1⟩ : Vector3) * (⟨1, 1, 1⟩ / ⟨1, 1, 1⟩) = ⟨1, 1, 1⟩ := by
    norm_num
  rw [hw] at h
  refine ⟨h, ?_⟩
  rw [h]
  norm_num

/-- C7 (amended): with one primary and ink limit exactly 0, the generator
produces exactly one candidate — the all-zero fraction combination —
whatever the target count is; every combination with a positive fraction
(including the all-one one) is pruned. -/
theorem claim_C7_limit_zero_single (p w : Vector3) (target : ℕ)
    (ht : 1 ≤ target) :
    generatedSecondaries [p] w target 0 = [(w * (w / w), [0])] :=
  generatedSecondaries_limit_zero p w target ht

/-- Witness for C7 (amended): target 3 with ink limit 0. -/
theorem claim_C7_witness :
    (1 ≤ 3) ∧
      generatedSecondaries [(⟨0, 0, 0⟩ : Vector3)] ⟨1, 1, 1⟩ 3 0 =
        [((⟨1, 1, 1⟩ : Vector3) * (⟨1, 1, 1⟩ / ⟨1, 1, 1⟩), [0])] :=
  ⟨by decide, claim_C7_limit_zero_single ⟨0, 0, 0⟩ ⟨1, 1, 1⟩ 3 (by decide)⟩

/-- C9 (counterexample): the serialization clamp maps `NaN` to `NaN`
(both IEEE comparisons are false for `NaN`), which lies outside `[0, 1]`;
so it is not the case that every `f32` input is clamped into `[0, 1]`. -/
theorem claim_C9_counterexample :
    clamp F32.nan = F32.nan ∧ inUnit01 (clamp F32.nan) = false := by
  decide

/-- C9 (amended): for every non-`NaN` input (including the infinities)
the clamp returns a value in `[0, 1]`, following the claimed mapping
(`≤ 0 ↦ 0`, `> 1 ↦ 1`, identity otherwise); `NaN` propagates as `NaN`. -/
theorem claim_C9_clamp_range (v : F32) (hv : v ≠ F32.nan) :
    inUnit01 (clamp v) = true ∧
      (F32.fle v (F32.val 0) = true → clamp v = F32.val 0) ∧
      (F32.flt (F32.val 1) v = true → clamp v = F32.val 1) ∧
      (F32.fle v (F32.val 0) = false → F32.flt (F32.val 1) v = false →
        clamp v = v) := by
  cases v with
  | nan => exact absurd rfl hv
  | inf =>
    refine ⟨?_, ?_, ?_, ?_⟩
    · norm_num [clamp, F32.fle, F32.flt, inUnit01]
    · intro h
      simp [F32.fle] at h
    · intro h
      rfl
    · intro h1 h2
      simp [F32.flt] at h2
  | ninf =>
    refine ⟨?_, ?_, ?_, ?_⟩
    · norm_num [clamp, F32.fle, F32.flt, inUnit01]
    · intro h
      rfl
    · intro h
      simp [F32.flt] at h
    · intro h1 h2
      simp [F32.fle] at h1
  | val q =>
    refine ⟨?_, ?_, ?_, ?_⟩
    · unfold clamp
      split_ifs with h1 h2
      · norm_num [inUnit01]
      · norm_num [inUnit01]
      · simp only [F32.fle, decide_eq_true_eq] at h1
        simp only [F32.flt, decide_eq_true_eq] at h2
        simp only [inUnit01, Bool.and_eq_true, decide_eq_true_eq]
        exact ⟨le_of_lt (not_le.mp h1), not_lt.mp h2⟩
    · intro h
      unfold clamp
      rw [if_pos h]
    · intro h
      unfold clamp
      rw [if_neg ?_, if_pos h]
      simp only [F32.fle, F32.flt, decide_eq_true_eq] at h ⊢
      intro hle
      linarith
    · intro h1 h2
      unfold clamp
      rw [if_neg (by rw [h1]; simp), if_neg (by rw [h2]; simp)]

/-- Witness for C9 (amended): positive infinity is clamped into range. -/
theorem claim_C9_witness :
    (F32.inf ≠ F32.nan) ∧ inUnit01 (clamp F32.inf) = true :=
  ⟨by decide, (claim_C9_clamp_range F32.inf (by decide)).1⟩

/-- C10: for every setup accepted by the program (≥ 1 primaries, target
≥ 1, ink limit ≥ 0), combination 0 survives the ink-limit check (the
check only abandons a combination whose running total strictly exceeds
the limit), so the candidate set is non-empty and the per-cell
nearest-neighbor lookup always finds a candidate — the per-cell `unwrap`
never fails. -/
theorem claim_C10_candidates_nonempty (primaries : List Vector3)
    (white : Vector3) (target : ℕ) (inklimit : WithTop ℚ)
    (hN : 1 ≤ primaries.length) (ht : 1 ≤ target) (hL : 0 ≤ inklimit) :
    (mixCombo primaries white (resolution target primaries.length) inklimit
        0).isSome = true ∧
      generatedSecondaries primaries white target inklimit ≠ [] ∧
      ∀ query,
        (nearestNeighbor (generatedSecondaries primaries white target inklimit)
          query).isSome = true := by
  have hcombo : (mixCombo primaries white (resolution target primaries.length)
      inklimit 0).isSome = true := by
    unfold mixCombo
    exact mixLoop_zero_isSome _ _ _ hL primaries white
  obtain ⟨c, hc⟩ := Option.isSome_iff_exists.mp hcombo
  have hmem : c ∈ generatedSecondaries primaries white target inklimit := by
    unfold generatedSecondaries secondaries
    refine List.mem_filterMap.mpr ⟨0, List.mem_range.mpr ?_, hc⟩
    exact Nat.one_le_pow _ _ (one_le_resolution target primaries.length ht)
  have hne := List.ne_nil_of_mem hmem
  exact ⟨hcombo, hne, fun query => nearestNeighbor_isSome _ query hne⟩

/-- Witness for C10: one primary, target 2, unbounded ink limit, looked
up at the origin. -/
theorem claim_C10_witness :
    (mixCombo [(⟨0, 0, 0⟩ : Vector3)] ⟨1, 1, 1⟩
        (resolution 2 ([(⟨0, 0, 0⟩ : Vector3)]).length) ⊤ 0).isSome = true ∧
      generatedSecondaries [(⟨0, 0, 0⟩ : Vector3)] ⟨1, 1, 1⟩ 2 ⊤ ≠ [] ∧
      (nearestNeighbor (generatedSecondaries [(⟨0, 0, 0⟩ : Vector3)] ⟨1, 1, 1⟩ 2 ⊤)
        ⟨0, 0, 0⟩).isSome = true := by
  obtain ⟨h1, h2, h3⟩ := claim_C10_candidates_nonempty [(⟨0, 0, 0⟩ : Vector3)]
    ⟨1, 1, 1⟩ 2 ⊤ (by decide) (by decide) le_top
  exact ⟨h1, h2, h3 ⟨0, 0, 0⟩⟩

end ColorSeparations
